import Mathlib

/-!
Verification of the OpenKimi core against its specification.

Shallow embedding of the core components of the OpenKimi repository
(`openkimi/core/entropy.py`, `processor.py`, `rag.py`, `engine.py`,
`framework.py`) and proofs about them.

Modelling conventions:
* Python strings are Lean `String`s; the Python string primitives
  (`str.split`, `str.lower`, `str.strip`, indexing with negative wrap-around)
  are re-implemented by structural recursion on the character list so that
  they evaluate inside the kernel.
* Python floats are modelled exactly: embedding vectors, distances and
  similarities as rationals, entropy values (which involve `log2`) as reals.
* The two external collaborators that are not part of the repository --
  the language model (`model.generate`, used through `summarize_text`) and the
  sentence-transformers embedding model (`encode`) -- are abstract function
  parameters, as is the sklearn TF-IDF pipeline used by semantic entropy.
* Fallible Python code returns `Except PyError`; a loop with no termination
  bound is driven by fuel and returns `none` when no amount of fuel finishes it.
-/

namespace OpenKimi

/-- A Python run-time error, as far as the claims need it. -/
inductive PyError where
  | attributeError (attr : String)
  deriving DecidableEq

/-! Section: Python string primitives -/

/-- Helper for `pySplit`: splits a character list on whitespace runs,
dropping empty pieces; `acc` is the current in-progress word, reversed. -/
def splitWsAux : List Char → List Char → List (List Char)
  | [], acc => if acc = [] then [] else [acc.reverse]
  | c :: cs, acc =>
    if c.isWhitespace then
      if acc = [] then splitWsAux cs [] else acc.reverse :: splitWsAux cs []
    else splitWsAux cs (c :: acc)

/-- Python `str.split()` with no argument: split on whitespace runs,
no empty pieces. -/
def pySplit (s : String) : List String :=
  (splitWsAux s.toList []).map (fun l => String.mk l)

/-- Python `str.lower()`. -/
def pyLower (s : String) : String := String.mk (s.toList.map Char.toLower)

/-- Python `text.lower().split()`, the tokenisation used by the entropy measures. -/
def pyWords (text : String) : List String := pySplit (pyLower text)

/-- Python `str.strip()`: drop leading and trailing whitespace. -/
def pyStrip (s : String) : String :=
  String.mk (((s.toList.dropWhile Char.isWhitespace).reverse.dropWhile
    Char.isWhitespace).reverse)

/-- Helper for `pySplitOnChar`, keeping empty pieces like Python `str.split(sep)`. -/
def splitOnCharAux (sep : Char) : List Char → List Char → List (List Char)
  | [], acc => [acc.reverse]
  | c :: cs, acc =>
    if c = sep then acc.reverse :: splitOnCharAux sep cs []
    else splitOnCharAux sep cs (c :: acc)

/-- Python `str.split(sep)` for a one-character separator: keeps empty pieces,
and `"".split(sep) = [""]`. -/
def pySplitOnChar (sep : Char) (s : String) : List String :=
  (splitOnCharAux sep s.toList []).map (fun l => String.mk l)

/-- Python list indexing `l[i]` guarded semantics: a negative index wraps
around once (`l[-1]` is the last element); out of range gives `none`. -/
def pyIndex {α : Type _} (l : List α) (i : ℤ) : Option α :=
  if 0 ≤ i then l.get? i.toNat
  else if 0 ≤ (l.length : ℤ) + i then l.get? ((l.length : ℤ) + i).toNat
  else none

/-! Section: EntropyEvaluator (`openkimi/core/entropy.py`) -/

/-- The values of `collections.Counter(l)`: the multiplicity of each distinct
element, in first-occurrence order. -/
def counterValues (l : List String) : List ℕ :=
  ((l.foldl (fun acc x => if x ∈ acc then acc else acc ++ [x]) []).map
    (fun w => l.count w))

/-- Shannon entropy `-sum p * log2 p` over a frequency list with the given
total, exactly as the Python accumulation loops compute it.  An empty
frequency list gives `0` (the loop body never runs). -/
noncomputable def entropyOfFreqs (freqs : List ℕ) (total : ℕ) : ℝ :=
  -((freqs.map (fun (f : ℕ) => (f : ℝ) / (total : ℝ) *
      Real.logb 2 ((f : ℝ) / (total : ℝ)))).sum)

/-- Source `EntropyEvaluator.calculate_word_entropy`: Shannon entropy of the
whitespace-token frequency distribution of `text.lower()`. -/
noncomputable def calculate_word_entropy (text : String) : ℝ :=
  let words := pyWords text
  entropyOfFreqs (counterValues words) words.length

/-- The n-gram list `[tuple(words[i:i+n]) for i in range(len(words)-n+1)]`;
the Python `range` is empty when `len(words) - n + 1 <= 0`. -/
def ngramsOf (words : List String) (n : ℕ) : List (List String) :=
  if n ≤ words.length then
    (List.range (words.length - n + 1)).map (fun i => (words.drop i).take n)
  else []

/-- Distinct-n-gram multiplicities, in first-occurrence order
(`Counter(ngrams).values()`). -/
def ngramCounterValues (l : List (List String)) : List ℕ :=
  ((l.foldl (fun acc x => if x ∈ acc then acc else acc ++ [x]) []).map
    (fun g => l.count g))

/-- Source `EntropyEvaluator.calculate_ngram_entropy`. -/
noncomputable def calculate_ngram_entropy (text : String) (n : ℕ) : ℝ :=
  let words := pyWords text
  let ngrams := ngramsOf words n
  entropyOfFreqs (ngramCounterValues ngrams) ngrams.length

/-- The evaluator state: `use_tfidf` from `__init__`, and the sklearn
TF-IDF/cosine-similarity pipeline of `calculate_semantic_entropy`
(lines 93-112) as an abstract function -- sklearn is an external library,
not part of this repository. -/
structure EntropyEvaluator where
  use_tfidf : Bool := true
  tfidfEntropy : List String → ℝ

/-- Source `EntropyEvaluator.calculate_semantic_entropy`: returns `0` when
`use_tfidf` is off or the text list is empty, otherwise runs the TF-IDF
pipeline. -/
noncomputable def EntropyEvaluator.calculate_semantic_entropy
    (E : EntropyEvaluator) (texts : List String) : ℝ :=
  if !E.use_tfidf || texts.isEmpty then 0 else E.tfidfEntropy texts

/-- The punctuation characters counted by structural entropy (`'.,!?;:'`). -/
def punctChars : List Char := ['.', ',', '!', '?', ';', ':']

/-- Distinct-character multiplicities for the punctuation distribution. -/
def charCounterValues (l : List Char) : List ℕ :=
  ((l.foldl (fun acc x => if x ∈ acc then acc else acc ++ [x]) []).map
    (fun c => l.count c))

/-- Distinct-number multiplicities for the sentence-length distribution. -/
def natCounterValues (l : List ℕ) : List ℕ :=
  ((l.foldl (fun acc x => if x ∈ acc then acc else acc ++ [x]) []).map
    (fun c => l.count c))

/-- Source `EntropyEvaluator.calculate_structural_entropy`: 0.7 * entropy of the
sentence-length distribution + 0.3 * entropy of the punctuation
distribution; sentences are the non-blank `'.'`-separated pieces, stripped. -/
noncomputable def calculate_structural_entropy (text : String) : ℝ :=
  let sentences := ((pySplitOnChar '.' text).map pyStrip).filter (· ≠ "")
  if sentences = [] then 0
  else
    let lengths := sentences.map (fun s => (pySplit s).length)
    let lengthEntropy := entropyOfFreqs (natCounterValues lengths) sentences.length
    let punctuation := text.toList.filter (· ∈ punctChars)
    let punctEntropy :=
      if 0 < punctuation.length then
        entropyOfFreqs (charCounterValues punctuation) punctuation.length
      else 0
    0.7 * lengthEntropy + 0.3 * punctEntropy

/-- The dictionary returned by `evaluate_text`. -/
structure EntropyDict where
  word_entropy : ℝ
  ngram_entropy : ℝ
  semantic_entropy : ℝ
  structural_entropy : ℝ
  weighted_entropy : ℝ

/-- The default weights of `evaluate_text`. -/
def default_weights : List (String × ℝ) :=
  [("word", 0.3), ("ngram", 0.2), ("semantic", 0.3), ("structural", 0.2)]

/-- Python `d[k]` on a dict modelled as an association list: `KeyError`
(carrying the key) when the key is absent. -/
def dictGet (d : List (String × ℝ)) (k : String) : Except String ℝ :=
  match d.find? (fun p => p.1 == k) with
  | some p => Except.ok p.2
  | none => Except.error k

/-- Source `EntropyEvaluator.evaluate_text`: computes the four measures, then the
weighted sum.  `weights = weights or default_weights` replaces the whole
dictionary when the caller passes a non-empty one; each `weights[...]` access
can raise `KeyError`, in the order word, ngram, semantic, structural. -/
noncomputable def EntropyEvaluator.evaluate_text (E : EntropyEvaluator)
    (text : String) (texts : Option (List String))
    (weights : Option (List (String × ℝ))) : Except String EntropyDict :=
  let w := match weights with
    | none => default_weights
    | some d => if d.isEmpty then default_weights else d
  let we := calculate_word_entropy text
  let ne := calculate_ngram_entropy text 2
  let se := E.calculate_semantic_entropy (text :: texts.getD [])
  let ste := calculate_structural_entropy text
  do
    let ww ← dictGet w "word"
    let wn ← dictGet w "ngram"
    let ws ← dictGet w "semantic"
    let wst ← dictGet w "structural"
    return ⟨we, ne, se, ste, ww * we + wn * ne + ws * se + wst * ste⟩

/-! Section: TextProcessor (`openkimi/core/processor.py`) -/

/-- The processor state set up by `TextProcessor.__init__`, including its
`EntropyEvaluator`. -/
structure TextProcessor where
  batch_size : ℕ := 512
  entropy_threshold : ℝ := 2.5
  overlap_size : ℕ := 50
  entropy_method : String := "weighted"
  evaluator : EntropyEvaluator

/-- Source `TextProcessor.calculate_entropy`: `evaluate_text` with the default
weights, which contain all four keys, so the `KeyError` branch is
unreachable (made total with a zero dictionary there). -/
noncomputable def TextProcessor.calculate_entropy (P : TextProcessor)
    (text : String) (context_texts : Option (List String)) : EntropyDict :=
  match P.evaluator.evaluate_text text context_texts none with
  | Except.ok r => r
  | Except.error _ => ⟨0, 0, 0, 0, 0⟩

/-- Selects the entropy named by `entropy_method` from the result dictionary
(the final `else` covers `"weighted"` and any other string). -/
def selectEntropy (method : String) (r : EntropyDict) : ℝ :=
  if method = "word" then r.word_entropy
  else if method = "ngram" then r.ngram_entropy
  else if method = "semantic" then r.semantic_entropy
  else if method = "structural" then r.structural_entropy
  else r.weighted_entropy

open Classical in
/-- The classification loop of `classify_by_entropy`: a chunk with
`entropy >= threshold` goes to the first (useful) list, otherwise to the
second, preserving order. -/
noncomputable def classifyLoop : List (String × ℝ) → ℝ → List String × List String
  | [], _ => ([], [])
  | (b, e) :: rest, th =>
    let tail := classifyLoop rest th
    if th ≤ e then (b :: tail.1, tail.2) else (tail.1, b :: tail.2)

/-- Source `TextProcessor.classify_by_entropy`: scores every batch (against the whole
batch list when `context_aware`), then splits the batches by the threshold
(the caller's, or the processor's own when the caller passes none). -/
noncomputable def TextProcessor.classify_by_entropy (P : TextProcessor)
    (batches : List String) (threshold : Option ℝ) (context_aware : Bool) :
    List String × List String :=
  let th := threshold.getD P.entropy_threshold
  let entropies := batches.map (fun b =>
    selectEntropy P.entropy_method
      (P.calculate_entropy b (if context_aware then some batches else none)))
  classifyLoop (batches.zip entropies) th

/-- Whether a word ends a sentence: Python
`word.endswith(('.', '!', '?'))`. -/
def sentenceEndFlag (w : String) : Bool :=
  match w.toList.getLast? with
  | some c => c == '.' || c == '!' || c == '?'
  | none => false

/-- The backward scan `for i in range(hi-1, start, -1)` of
`split_into_batches` looking for the last sentence-end flag in the window;
`flags[i]` is total because `i < len(words)` always holds there. -/
def findBoundaryDown (flags : List Bool) : ℕ → ℕ → Option ℕ
  | i, start =>
    if i ≤ start then none
    else if flags.getD i false then some i
    else findBoundaryDown flags (i - 1) start
  termination_by i _ => i
  decreasing_by omega

/-- One iteration of the `while start_idx < len(words)` loop of
`split_into_batches` (sentence-boundary mode): returns the new
`start_idx` and the appended batch.  `start_idx = max(0, end_idx -
overlap_size)` is natural-number subtraction. -/
def splitStep (P : TextProcessor) (words : List String) (flags : List Bool)
    (start : ℕ) : ℕ × String :=
  let hi := min (start + P.batch_size) words.length
  let endI := match findBoundaryDown flags (hi - 1) start with
    | some i => i + 1
    | none => hi
  let batch := String.intercalate " " ((words.drop start).take (endI - start))
  (endI - P.overlap_size, batch)

/-- The `while` loop of `split_into_batches`, fuel-driven: the Python loop
has no termination bound, so running out of fuel (`none`) for every fuel
value models a loop that never exits. -/
def splitLoop (P : TextProcessor) (words : List String) (flags : List Bool) :
    ℕ → ℕ → List String → Option (List String)
  | 0, _, _ => none
  | fuel + 1, start, acc =>
    if start < words.length then
      let step := splitStep P words flags start
      splitLoop P words flags fuel step.1 (acc ++ [step.2])
    else some acc

/-- Source `TextProcessor.split_into_batches` in its default `by_sentence=True` form,
the only form the engine uses. -/
def TextProcessor.split_into_batches (P : TextProcessor) (text : String)
    (fuel : ℕ) : Option (List String) :=
  let words := pySplit text
  let flags := words.map sentenceEndFlag
  splitLoop P words flags fuel 0 []

/-! Section: RAGManager (`openkimi/core/rag.py`)

The embedding model (`SentenceTransformer.encode`) and the summarising
language model are external collaborators, passed in as abstract functions
`embed : String → List ℚ` and `summarize : String → String` (the latter
standing for `summarize_text`, i.e. `model.generate` on the summary prompt
followed by `strip`). -/

/-- Insertion sort on a boolean comparator; `le x y` means `x` may stay in
front of `y`.  With a strict comparator this is a stable sort, matching
Python's `list.sort`; with a total comparator it realises the documented
output order of exact nearest-neighbour search. -/
def insertSorted {α : Type _} (le : α → α → Bool) (x : α) : List α → List α
  | [] => [x]
  | y :: ys => if le x y then x :: y :: ys else y :: insertSorted le x ys

/-- Sorting by a boolean comparator (insertion sort). -/
def sortedBy {α : Type _} (le : α → α → Bool) : List α → List α
  | [] => []
  | x :: xs => insertSorted le x (sortedBy le xs)

/-- Squared Euclidean (L2) distance, the metric of `faiss.IndexFlatL2`. -/
def sqL2 (u v : List ℚ) : ℚ := ((u.zip v).map (fun p => (p.1 - p.2) ^ 2)).sum

/-- The order in which `faiss.IndexFlatL2.search` reports its `k` nearest
neighbours: ascending distance, ties by ascending id. -/
def faissLe (a b : ℤ × ℚ) : Bool :=
  decide (a.2 < b.2 ∨ (a.2 = b.2 ∧ a.1 ≤ b.1))

/-- Exact nearest-neighbour search over the stored index vectors:
`(id, distance)` pairs for the `k` nearest, padded with id `-1` entries when
`k` exceeds the number of indexed vectors, as FAISS does. -/
def nnSearch (vecs : List (List ℚ)) (q : List ℚ) (k : ℕ) : List (ℤ × ℚ) :=
  let scored := vecs.enum.map (fun p => ((p.1 : ℤ), sqL2 q p.2))
  let taken := (sortedBy faissLe scored).take k
  taken ++ List.replicate (k - taken.length) (-1, 0)

/-- The mutable state of a `RAGManager`: the summary list `self.texts`, the
embedding list `self.embeddings`, the FAISS index content (present exactly
when `__init__` created one), and the configured flags. -/
structure RAGState where
  texts : List String
  embeddings : List (List ℚ)
  index : Option (List (List ℚ))
  use_faiss : Bool
  similarity_threshold : ℚ

/-- The state `RAGManager.__init__` leaves behind (empty store; an index is
created only when `use_faiss`; `similarity_threshold` defaults to 0.7). -/
def RAGState.init (use_faiss : Bool) : RAGState :=
  ⟨[], [], if use_faiss then some [] else none, use_faiss, 7/10⟩

/-- Source `RAGManager.store_text`: summarise, return early on a duplicate summary;
otherwise append the summary and its embedding, and on the FAISS branch
append the summary to `self.texts` a second time (lines 273 and 283 of
`rag.py` both append it) before adding the vector to the index. -/
def store_text (summarize : String → String) (embed : String → List ℚ)
    (st : RAGState) (text : String) : RAGState × String :=
  let summary := summarize text
  if summary ∈ st.texts then (st, summary)
  else
    let st1 := { st with texts := st.texts ++ [summary] }
    let emb := embed summary
    let st2 := { st1 with embeddings := st1.embeddings ++ [emb] }
    let st3 :=
      if st2.use_faiss && st2.index.isSome then
        { st2 with texts := st2.texts ++ [summary],
                   index := some (st2.index.getD [] ++ [emb]) }
      else st2
    (st3, summary)

/-- The per-text loop of `batch_store`, threading the store state and the
three accumulators `summaries`, `new_vectors`, `new_summaries`; duplicates
are checked against `self.texts`, which already contains the summaries
produced earlier in the same call. -/
def batchStoreLoop (summarize : String → String) (embed : String → List ℚ) :
    List String → RAGState → List String → List (List ℚ) → List String →
    RAGState × List String × List (List ℚ) × List String
  | [], st, summaries, nv, ns => (st, summaries, nv, ns)
  | t :: rest, st, summaries, nv, ns =>
    let summary := summarize t
    if summary ∈ st.texts then
      batchStoreLoop summarize embed rest st (summaries ++ [summary]) nv ns
    else
      let emb := embed summary
      let st2 := { st with texts := st.texts ++ [summary],
                           embeddings := st.embeddings ++ [emb] }
      batchStoreLoop summarize embed rest st2 (summaries ++ [summary])
        (nv ++ [emb]) (ns ++ [summary])

/-- Source `RAGManager.batch_store`: early return on an empty list; then the
per-text loop; then, on the FAISS branch with new vectors, `self.texts` is
extended with the new summaries a second time and the vectors are added to
the index in one batch. -/
def batch_store (summarize : String → String) (embed : String → List ℚ)
    (st : RAGState) (texts : List String) : RAGState × List String :=
  if texts = [] then (st, [])
  else
    let r := batchStoreLoop summarize embed texts st [] [] []
    let st1 := r.1
    let summaries := r.2.1
    let nv := r.2.2.1
    let ns := r.2.2.2
    let st2 :=
      if st1.use_faiss && st1.index.isSome && !nv.isEmpty then
        { st1 with texts := st1.texts ++ ns,
                   index := some (st1.index.getD [] ++ nv) }
      else st1
    (st2, summaries)

/-- Cosine similarity as `sklearn.metrics.pairwise.cosine_similarity`
computes it for one pair of rows. -/
noncomputable def cosineSim (u v : List ℚ) : ℝ :=
  ((((u.zip v).map (fun p => p.1 * p.2)).sum : ℚ) : ℝ) /
    (Real.sqrt ((u.map (fun x => ((x : ℝ)) ^ 2)).sum) *
     Real.sqrt ((v.map (fun x => ((x : ℝ)) ^ 2)).sum))

open Classical in
/-- Numpy `np.argsort(similarities)[::-1]`: indices by ascending similarity, stably,
then reversed -- descending similarity with ties by descending index. -/
noncomputable def argsortDesc (sims : List ℝ) : List ℕ :=
  (sortedBy (fun a b => decide (b.2 < a.2 ∨ (a.2 = b.2 ∧ b.1 ≤ a.1)))
    sims.enum).map (fun p => p.1)

open Classical in
/-- The sklearn fallback branch of `RAGManager.retrieve`: cosine similarity
against every stored embedding, top `top_k` indices by descending
similarity, keeping only strictly positive similarities. -/
noncomputable def sklearnRetrieve (embed : String → List ℚ) (st : RAGState)
    (query : String) (top_k : ℕ) : List String :=
  let qe := embed query
  let sims := st.embeddings.map (fun v => cosineSim qe v)
  let topIdx := (argsortDesc sims).take top_k
  topIdx.filterMap (fun i =>
    match sims.get? i, st.texts.get? i with
    | some s, some t => if 0 < s then some t else none
    | _, _ => none)

/-- Source `RAGManager.retrieve` (lines 346-416): empty-store early returns, then
the FAISS branch -- search `min(top_k, len(texts))` nearest neighbours and
collect `self.texts[idx]` for every returned id passing the `idx <
len(texts)` guard (Python indexing wraps the `-1` padding ids around) --
with the sklearn path as the non-FAISS fallback.  No distance-to-similarity
conversion and no threshold test appear anywhere on this path. -/
noncomputable def retrieve (embed : String → List ℚ) (st : RAGState)
    (query : String) (top_k : ℕ) : List String :=
  if st.texts = [] then []
  else if st.embeddings = [] then []
  else
    let qe := embed query
    if st.use_faiss && st.index.isSome && decide (0 < st.texts.length) then
      let k := min top_k st.texts.length
      let res := nnSearch (st.index.getD []) qe k
      res.filterMap (fun p =>
        if p.1 < (st.texts.length : ℤ) then
          match pyIndex st.texts p.1 with
          | some summary => if summary ∈ st.texts then some summary else none
          | none => none
        else none)
    else sklearnRetrieve embed st query top_k

/-- Modelled from the spec: `retrieve(query, top_k, similarity_threshold)`
as §4.3 words it -- embed the query, search `min(top_k, |records|)` nearest
neighbours, convert each distance via `sim = 1 / (1 + distance)`, drop
results with `sim` below the threshold, and return the texts of the
survivors ordered by similarity descending, ties by ascending id. -/
def retrieveSpec (embed : String → List ℚ) (st : RAGState) (query : String)
    (top_k : ℕ) : List String :=
  let qe := embed query
  let cands := nnSearch (st.index.getD []) qe (min top_k st.texts.length)
  let withSim := cands.map (fun p => (p.1, (1 : ℚ) / (1 + p.2)))
  let surviving := withSim.filter (fun p => st.similarity_threshold ≤ p.2)
  let ordered := sortedBy
    (fun a b => decide (b.2 < a.2 ∨ (a.2 = b.2 ∧ a.1 ≤ b.1))) surviving
  ordered.filterMap (fun p => pyIndex st.texts p.1)

/-- The amended description of the FAISS retrieval path: rank all indexed
records by similarity `1 / (1 + distance)` descending (ties by ascending
id), take `min(top_k, |texts|)` of them, and return their stored summary
strings -- with no threshold filtering at all. -/
def retrieveAmendedSpec (embed : String → List ℚ) (st : RAGState)
    (query : String) (top_k : ℕ) : List String :=
  let qe := embed query
  let vecs := st.index.getD []
  let scored := vecs.enum.map
    (fun p => ((p.1 : ℤ), (1 : ℚ) / (1 + sqL2 qe p.2)))
  let ordered := sortedBy
    (fun a b => decide (b.2 < a.2 ∨ (a.2 = b.2 ∧ a.1 ≤ b.1))) scored
  (ordered.take (min top_k st.texts.length)).filterMap
    (fun p => pyIndex st.texts p.1)

/-! Section: KimiEngine (`openkimi/core/engine.py`) -/

/-- Source `KimiEngine._recursive_rag_compress` (lines 160-204).  Within budget the
text is returned unchanged.  Otherwise the engine splits the text
(`split_into_batches`, fuel-driven: `none` models the splitter's loop never
exiting), classifies the batches with the configured entropy threshold,
batch-stores the low-entropy ones into a transient `RAGManager`, and then,
at line 186, reads `temp_rag.rag_store` -- an attribute `RAGManager` never
defines anywhere -- so the branch ends in `AttributeError`.  The recursion
at line 197 and the truncation fallback at line 201 are dead code behind
that read. -/
noncomputable def recursive_rag_compress (P : TextProcessor)
    (countTokens : String → ℕ) (summarize : String → String)
    (embed : String → List ℚ) (use_faiss : Bool) (entropy_threshold : ℝ)
    (fuel : ℕ) (text : String) (target_token_limit : ℕ) :
    Option (Except PyError String) :=
  if countTokens text ≤ target_token_limit then some (Except.ok text)
  else
    match P.split_into_batches text fuel with
    | none => none
    | some batches =>
      let classified :=
        P.classify_by_entropy batches (some entropy_threshold) true
      let stored :=
        batch_store summarize embed (RAGState.init use_faiss) classified.2
      let _ := stored
      some (Except.error (PyError.attributeError "rag_store"))

/-! Section: FrameworkGenerator (`openkimi/core/framework.py`) -/

/-- The generator state: `__init__` sets only the model and the two strategy
dictionaries; in particular no attribute `current_query` is ever assigned,
here modelled as an optional field that construction leaves `none`. -/
structure FrameworkGenerator where
  current_query : Option String := none

/-- The fresh generator produced by `FrameworkGenerator.__init__`. -/
def FrameworkGenerator.init : FrameworkGenerator := ⟨none⟩

/-- The inner `calculate_relevance` of `_relevance_based_sampling`:
the token-overlap ratio `|set(query words) ∩ set(text words)| /
|set(query words)|`. -/
def calculate_relevance (text query : String) : ℚ :=
  let queryWords := (pyWords query).dedup
  let textWords := (pyWords text).dedup
  ((queryWords.filter (· ∈ textWords)).length : ℚ) / (queryWords.length : ℚ)

/-- Source `FrameworkGenerator._relevance_based_sampling` (lines 120-133): ranks
`[useful_context] + rag_context` by relevance to `self.current_query` --
an attribute that is never assigned anywhere in the class, so on every
reachable generator the first access raises `AttributeError`.  The ranking
(`list.sort(key=..., reverse=True)`: stable descending) only runs in the
unreachable case where the attribute exists. -/
def relevance_based_sampling (G : FrameworkGenerator) (useful_context : String)
    (rag_context : List String) (num_samples : ℕ) :
    Except PyError (List String) :=
  match G.current_query with
  | none => Except.error (PyError.attributeError "current_query")
  | some q =>
    let all_contexts := useful_context :: rag_context
    let scored := all_contexts.map (fun ctx => (ctx, calculate_relevance ctx q))
    let ordered := sortedBy (fun a b => decide (b.2 < a.2)) scored
    Except.ok ((ordered.take num_samples).map (fun p => p.1))

/-! Section: Concrete collaborators and states used by witnesses and counterexamples -/

/-- A processor as `KimiEngine.__init__` builds it: `TextProcessor(batch_size=512)`,
every other field left at its default, with a stub TF-IDF pipeline. -/
noncomputable def engineProcessor : TextProcessor :=
  { batch_size := 512, entropy_threshold := 2.5, overlap_size := 50,
    entropy_method := "weighted", evaluator := ⟨true, fun _ => 0⟩ }

/-- The store state after one `store_text` call on a fresh FAISS-backed
manager whose summariser returns `"s"` and whose embedder returns `[0]`:
the summary sits in `texts` twice, with one embedding and one index vector. -/
def storedOnceState : RAGState :=
  ⟨["s", "s"], [[0]], some [[0]], true, 7/10⟩

/-- A well-formed single-record FAISS store (one summary, one embedding,
one index vector). -/
def singleRecordState : RAGState :=
  ⟨["s"], [[0]], some [[0]], true, 7/10⟩

/-- An embedder that sends every text to the vector `[3]`, at squared-L2
distance 9 from the stored vector `[0]`. -/
def farEmbed : String → List ℚ := fun _ => [3]

/-- An embedder that sends every text to the stored vector itself. -/
def nearEmbed : String → List ℚ := fun _ => [0]

/-! Section: Helper lemmas -/

theorem insertSorted_perm {α : Type _} (le : α → α → Bool) (x : α) :
    ∀ l : List α, (insertSorted le x l).Perm (x :: l) := by
  intro l
  induction l with
  | nil => simp [insertSorted]
  | cons y ys ih =>
    simp only [insertSorted]
    by_cases h : le x y
    · simp [h]
    · simp only [h, if_neg, Bool.false_eq_true, not_false_iff, if_false]
      exact (ih.cons y).trans (List.Perm.swap x y ys)

theorem sortedBy_perm {α : Type _} (le : α → α → Bool) :
    ∀ l : List α, (sortedBy le l).Perm l := by
  intro l
  induction l with
  | nil => simp [sortedBy]
  | cons x xs ih =>
    simpa [sortedBy] using (insertSorted_perm le x (sortedBy le xs)).trans (ih.cons x)

theorem sortedBy_length {α : Type _} (le : α → α → Bool) (l : List α) :
    (sortedBy le l).length = l.length :=
  (sortedBy_perm le l).length_eq

theorem nnSearch_length (vecs : List (List ℚ)) (q : List ℚ) (k : ℕ) :
    (nnSearch vecs q k).length = k := by
  simp only [nnSearch, List.length_append, List.length_replicate]
  have h : ((sortedBy faissLe (vecs.enum.map
      (fun p => ((p.1 : ℤ), sqL2 q p.2)))).take k).length ≤ k := by
    simp [List.length_take]
  omega

theorem classifyLoop_perm (pairs : List (String × ℝ)) (th : ℝ) :
    ((classifyLoop pairs th).1 ++ (classifyLoop pairs th).2).Perm
      (pairs.map Prod.fst) := by
  induction pairs with
  | nil => simp [classifyLoop]
  | cons p rest ih =>
    obtain ⟨b, e⟩ := p
    simp only [classifyLoop, List.map_cons]
    by_cases h : th ≤ e
    · simpa [h] using ih.cons b
    · simp only [h, if_false]
      exact List.perm_middle.trans (ih.cons b)

theorem entropyOfFreqs_nil (total : ℕ) : entropyOfFreqs [] total = 0 := by
  simp [entropyOfFreqs]

theorem entropyOfFreqs_single (t : ℕ) (h : t ≠ 0) : entropyOfFreqs [t] t = 0 := by
  have ht : ((t : ℝ) / (t : ℝ)) = 1 :=
    div_self (Nat.cast_ne_zero.mpr h)
  simp [entropyOfFreqs, ht, Real.logb_one]

theorem entropyOfFreqs_replicate_one (k : ℕ) (h : k ≠ 0) :
    entropyOfFreqs (List.replicate k 1) k = Real.logb 2 k := by
  have hk : ((k : ℝ)) ≠ 0 := Nat.cast_ne_zero.mpr h
  unfold entropyOfFreqs
  rw [List.map_replicate, List.sum_replicate, nsmul_eq_mul, Nat.cast_one, one_div,
    Real.logb_inv]
  rw [mul_neg, mul_neg, neg_neg, ← mul_assoc, mul_inv_cancel₀ hk, one_mul]

/-! Section: Claim theorems -/

/-- Claim C4: `classify_by_entropy` places every input chunk in exactly one
of the two output lists: their concatenation is a permutation of the input,
and in particular the lengths add up to the input length. -/
theorem classify_by_entropy_partition (P : TextProcessor)
    (batches : List String) (threshold : Option ℝ) (context_aware : Bool) :
    (P.classify_by_entropy batches threshold context_aware).1.length +
      (P.classify_by_entropy batches threshold context_aware).2.length =
      batches.length ∧
    ((P.classify_by_entropy batches threshold context_aware).1 ++
      (P.classify_by_entropy batches threshold context_aware).2).Perm batches := by
  have hmap : (batches.zip (batches.map (fun b =>
      selectEntropy P.entropy_method (P.calculate_entropy b
        (if context_aware then some batches else none))))).map Prod.fst =
      batches := by
    apply List.map_fst_zip
    simp
  have hperm := classifyLoop_perm (batches.zip (batches.map (fun b =>
      selectEntropy P.entropy_method (P.calculate_entropy b
        (if context_aware then some batches else none)))))
      (threshold.getD P.entropy_threshold)
  rw [hmap] at hperm
  constructor
  · have := hperm.length_eq
    simpa [TextProcessor.classify_by_entropy] using this
  · simpa [TextProcessor.classify_by_entropy] using hperm

/-- Claim C10: `batch_store` applied to the empty text list returns the
empty summary list and leaves the store state (summaries, embeddings and
index alike) unchanged. -/
theorem batch_store_empty_noop (summarize : String → String)
    (embed : String → List ℚ) (st : RAGState) :
    batch_store summarize embed st [] = (st, []) := by
  simp [batch_store]

/-- Claim C3 (code bug): one `store_text` call on a fresh FAISS store with a
new summary appends the summary to the summary list twice (lines 273 and
283 of `rag.py`), while the embedding list and the index each gain one
entry -- not the single summary-list entry the claim describes. -/
theorem store_text_double_append :
    (store_text (fun _ => "s") (fun _ => [0]) (RAGState.init true) "t").1.texts
        = ["s", "s"] ∧
    (store_text (fun _ => "s") (fun _ => [0]) (RAGState.init true) "t").1.embeddings.length
        = 1 ∧
    ((store_text (fun _ => "s") (fun _ => [0]) (RAGState.init true) "t").1.index.getD []).length
        = 1 ∧
    (store_text (fun _ => "s") (fun _ => [0]) (RAGState.init true) "t").2 = "s" := by
  refine ⟨?_, ?_, ?_, ?_⟩ <;> rfl

/-- Claim C9 (code bug): the relevance context-sampling strategy reads
`self.current_query`, which `FrameworkGenerator` never assigns, so on any
generator the class can actually build it raises `AttributeError` instead
of returning the overlap-ranked top-N pool members. -/
theorem relevance_sampling_attribute_error (useful_context : String)
    (rag_context : List String) (num_samples : ℕ) :
    relevance_based_sampling FrameworkGenerator.init useful_context
        rag_context num_samples =
      Except.error (PyError.attributeError "current_query") := by
  rfl

/-- Claim C6: on empty input every entropy measure returns 0 instead of
failing -- word and n-gram entropy whenever the text has no tokens,
structural entropy on the empty text, and semantic entropy (whose input is
the list of texts) on the empty corpus, where its early-return guard fires. -/
theorem entropy_empty_input_zero :
    (∀ text : String, pyWords text = [] →
      calculate_word_entropy text = 0 ∧
      ∀ n : ℕ, calculate_ngram_entropy text n = 0) ∧
    calculate_structural_entropy "" = 0 ∧
    ∀ E : EntropyEvaluator, E.calculate_semantic_entropy [] = 0 := by
  refine ⟨fun text h => ⟨?_, fun n => ?_⟩, ?_, fun E => ?_⟩
  · show entropyOfFreqs (counterValues (pyWords text)) (pyWords text).length = 0
    rw [h]
    simp [counterValues, entropyOfFreqs]
  · show entropyOfFreqs (ngramCounterValues (ngramsOf (pyWords text) n))
      (ngramsOf (pyWords text) n).length = 0
    rw [h]
    match n with
    | 0 =>
      have hg : ngramsOf [] 0 = [[]] := by decide
      rw [hg]
      have hc : ngramCounterValues [([] : List String)] = [1] := by decide
      rw [hc]
      exact entropyOfFreqs_single 1 one_ne_zero
    | n + 1 =>
      have hg : ngramsOf [] (n + 1) = [] := by
        simp [ngramsOf]
      rw [hg]
      exact entropyOfFreqs_nil 0
  · rfl
  · simp [EntropyEvaluator.calculate_semantic_entropy]

/-- Witness for C6 at the empty text. -/
theorem entropy_empty_input_zero_witness :
    pyWords "" = [] ∧ calculate_word_entropy "" = 0 ∧
      calculate_ngram_entropy "" 2 = 0 :=
  ⟨by decide, (entropy_empty_input_zero.1 "" (by decide)).1,
    (entropy_empty_input_zero.1 "" (by decide)).2 2⟩

/-- Counterexample to claim C8 as stated: `"aaaaaaaaaa"` and `"abcdefghij"`
are each a single whitespace token, so both word entropies are 0 and the
strict inequality fails. -/
theorem word_entropy_single_token_counterexample :
    ¬ (calculate_word_entropy "aaaaaaaaaa" < calculate_word_entropy "abcdefghij") := by
  have e1 : calculate_word_entropy "aaaaaaaaaa" =
      entropyOfFreqs (counterValues (pyWords "aaaaaaaaaa"))
        (pyWords "aaaaaaaaaa").length := rfl
  have e2 : calculate_word_entropy "abcdefghij" =
      entropyOfFreqs (counterValues (pyWords "abcdefghij"))
        (pyWords "abcdefghij").length := rfl
  have h1 : counterValues (pyWords "aaaaaaaaaa") = [1] := by decide
  have hl1 : (pyWords "aaaaaaaaaa").length = 1 := by decide
  have h2 : counterValues (pyWords "abcdefghij") = [1] := by decide
  have hl2 : (pyWords "abcdefghij").length = 1 := by decide
  rw [e1, e2, h1, hl1, h2, hl2, entropyOfFreqs_single 1 one_ne_zero]
  exact lt_irrefl 0

/-- Claim C8 amended: with the characters as actual whitespace-separated
tokens, the word entropy of ten repeats of one token (0) is strictly below
the word entropy of ten distinct tokens (`log2 10`). -/
theorem word_entropy_diversity_amended :
    calculate_word_entropy "a a a a a a a a a a" <
      calculate_word_entropy "a b c d e f g h i j" := by
  have e1 : calculate_word_entropy "a a a a a a a a a a" =
      entropyOfFreqs (counterValues (pyWords "a a a a a a a a a a"))
        (pyWords "a a a a a a a a a a").length := rfl
  have e2 : calculate_word_entropy "a b c d e f g h i j" =
      entropyOfFreqs (counterValues (pyWords "a b c d e f g h i j"))
        (pyWords "a b c d e f g h i j").length := rfl
  have h1 : counterValues (pyWords "a a a a a a a a a a") = [10] := by decide
  have hl1 : (pyWords "a a a a a a a a a a").length = 10 := by decide
  have h2 : counterValues (pyWords "a b c d e f g h i j") = List.replicate 10 1 := by
    decide
  have hl2 : (pyWords "a b c d e f g h i j").length = 10 := by decide
  rw [e1, e2, h1, hl1, h2, hl2, entropyOfFreqs_single 10 (by norm_num),
    entropyOfFreqs_replicate_one 10 (by norm_num)]
  have : (1 : ℝ) < (10 : ℕ) := by norm_num
  exact Real.logb_pos one_lt_two this

/-- Counterexample to claim C7 as stated: a weights dictionary carrying only
the `word` key makes `evaluate_text` fail with `KeyError: 'ngram'` instead
of falling back to the default value for the missing keys. -/
theorem evaluate_text_subset_weights_counterexample :
    EntropyEvaluator.evaluate_text ⟨true, fun _ => 0⟩ "x" none
        (some [("word", 1)]) = Except.error "ngram" := by
  rfl

/-- Claim C7 amended: a caller-supplied non-empty weights dictionary replaces
the defaults wholesale -- `evaluate_text` succeeds exactly when it contains
all four keys, using only the caller's values; the defaults
`{word: 0.3, ngram: 0.2, semantic: 0.3, structural: 0.2}` are used only
when no (or an empty) dictionary is passed. -/
theorem evaluate_text_weights_amended (E : EntropyEvaluator) (text : String)
    (texts : Option (List String)) (d : List (String × ℝ)) (a b c e : ℝ)
    (hw : dictGet d "word" = Except.ok a)
    (hn : dictGet d "ngram" = Except.ok b)
    (hs : dictGet d "semantic" = Except.ok c)
    (hst : dictGet d "structural" = Except.ok e) :
    E.evaluate_text text texts (some d) = Except.ok
      ⟨calculate_word_entropy text, calculate_ngram_entropy text 2,
       E.calculate_semantic_entropy (text :: texts.getD []),
       calculate_structural_entropy text,
       a * calculate_word_entropy text + b * calculate_ngram_entropy text 2 +
         c * E.calculate_semantic_entropy (text :: texts.getD []) +
         e * calculate_structural_entropy text⟩ ∧
    E.evaluate_text text texts none = Except.ok
      ⟨calculate_word_entropy text, calculate_ngram_entropy text 2,
       E.calculate_semantic_entropy (text :: texts.getD []),
       calculate_structural_entropy text,
       0.3 * calculate_word_entropy text + 0.2 * calculate_ngram_entropy text 2 +
         0.3 * E.calculate_semantic_entropy (text :: texts.getD []) +
         0.2 * calculate_structural_entropy text⟩ := by
  have hd : d.isEmpty = false := by
    cases d with
    | nil => simp [dictGet] at hw
    | cons p rest => rfl
  constructor
  · simp only [EntropyEvaluator.evaluate_text, hd, Bool.false_eq_true, if_false,
      hw, hn, hs, hst]
    rfl
  · rfl

/-- Witness for the amended C7 at a concrete four-key dictionary. -/
theorem evaluate_text_weights_amended_witness :
    dictGet [("word", (1 : ℝ)), ("ngram", 2), ("semantic", 3), ("structural", 4)]
        "word" = Except.ok 1 ∧
    dictGet [("word", (1 : ℝ)), ("ngram", 2), ("semantic", 3), ("structural", 4)]
        "ngram" = Except.ok 2 ∧
    dictGet [("word", (1 : ℝ)), ("ngram", 2), ("semantic", 3), ("structural", 4)]
        "semantic" = Except.ok 3 ∧
    dictGet [("word", (1 : ℝ)), ("ngram", 2), ("semantic", 3), ("structural", 4)]
        "structural" = Except.ok 4 ∧
    (EntropyEvaluator.evaluate_text ⟨true, fun _ => 0⟩ "x" none
        (some [("word", 1), ("ngram", 2), ("semantic", 3), ("structural", 4)]) =
      Except.ok
        ⟨calculate_word_entropy "x", calculate_ngram_entropy "x" 2,
         EntropyEvaluator.calculate_semantic_entropy ⟨true, fun _ => 0⟩
           ("x" :: (none : Option (List String)).getD []),
         calculate_structural_entropy "x",
         1 * calculate_word_entropy "x" + 2 * calculate_ngram_entropy "x" 2 +
           3 * EntropyEvaluator.calculate_semantic_entropy ⟨true, fun _ => 0⟩
             ("x" :: (none : Option (List String)).getD []) +
           4 * calculate_structural_entropy "x"⟩) :=
  ⟨rfl, rfl, rfl, rfl,
    (evaluate_text_weights_amended ⟨true, fun _ => 0⟩ "x" none
      [("word", 1), ("ngram", 2), ("semantic", 3), ("structural", 4)]
      1 2 3 4 rfl rfl rfl rfl).1⟩

theorem argsortDesc_length (sims : List ℝ) : (argsortDesc sims).length = sims.length := by
  simp [argsortDesc, sortedBy_length]

theorem retrieve_of_empty_texts (embed : String → List ℚ) (st : RAGState)
    (query : String) (top_k : ℕ) (h : st.texts = []) :
    retrieve embed st query top_k = [] := by
  simp [retrieve, h]

/-- Claim C5 amended: `retrieve` returns at most `min(top_k, |texts|)`
results, where `texts` is the store's summary list -- which, because of the
double append of C3, can hold each stored record twice, so the bound in
terms of actual records can be exceeded -- and on an empty store it returns
the empty list for every query. -/
theorem retrieve_count_bound (embed : String → List ℚ) (st : RAGState)
    (query : String) (top_k : ℕ)
    (h : st.embeddings.length ≤ st.texts.length) :
    (retrieve embed st query top_k).length ≤ min top_k st.texts.length ∧
      (st.texts = [] → retrieve embed st query top_k = []) := by
  refine ⟨?_, retrieve_of_empty_texts embed st query top_k⟩
  by_cases ht : st.texts = []
  · simp [retrieve_of_empty_texts embed st query top_k ht]
  · by_cases he : st.embeddings = []
    · simp [retrieve, ht, he]
    · simp only [retrieve, ht, he, if_neg, if_false]
      by_cases hc : (st.use_faiss && st.index.isSome &&
          decide (0 < st.texts.length)) = true
      · simp only [hc, if_true]
        calc ((nnSearch (st.index.getD []) (embed query)
                (min top_k st.texts.length)).filterMap _).length
            ≤ (nnSearch (st.index.getD []) (embed query)
                (min top_k st.texts.length)).length :=
              List.length_filterMap_le _ _
          _ = min top_k st.texts.length := nnSearch_length _ _ _
      · simp only [hc, if_false]
        have h1 : (sklearnRetrieve embed st query top_k).length ≤
            min top_k st.embeddings.length := by
          calc (sklearnRetrieve embed st query top_k).length
              ≤ ((argsortDesc (st.embeddings.map
                  (fun v => cosineSim (embed query) v))).take top_k).length :=
                List.length_filterMap_le _ _
            _ = min top_k st.embeddings.length := by
                simp [List.length_take, argsortDesc_length]
        exact h1.trans (min_le_min (le_refl top_k) h)

/-- Witness for C5 at a concrete single-record FAISS store. -/
theorem retrieve_count_bound_witness :
    singleRecordState.embeddings.length ≤ singleRecordState.texts.length ∧
    ((retrieve nearEmbed singleRecordState "q" 3).length ≤
        min 3 singleRecordState.texts.length ∧
      (singleRecordState.texts = [] →
        retrieve nearEmbed singleRecordState "q" 3 = [])) :=
  ⟨by decide, retrieve_count_bound nearEmbed singleRecordState "q" 3 (by decide)⟩

/-- Counterexample to claim C5 as stated: one `store_text` call stores one
record but (per the double append) leaves two `texts` entries, so
`retrieve` with `top_k = 2` searches `min(2, 2) = 2` neighbours over the
one-vector index; FAISS pads the second id with `-1`, which passes the
`idx < len(texts)` guard and wraps to `texts[-1]`, so the call returns two
results from one stored record -- more than `min(top_k, 1) = 1`. -/
theorem retrieve_count_counterexample :
    (store_text (fun _ => "s") (fun _ => [0]) (RAGState.init true) "t").1 =
      storedOnceState ∧
    storedOnceState.embeddings.length = 1 ∧
    retrieve nearEmbed storedOnceState "q" 2 = ["s", "s"] ∧
    ¬ ((retrieve nearEmbed storedOnceState "q" 2).length ≤
        min 2 storedOnceState.embeddings.length) := by
  have h3 : retrieve nearEmbed storedOnceState "q" 2 = ["s", "s"] := by
    norm_num [retrieve, storedOnceState, nearEmbed, nnSearch, sortedBy,
      insertSorted, faissLe, sqL2, pyIndex, List.enum, List.enumFrom,
      List.filterMap_cons, List.replicate]
  refine ⟨rfl, rfl, h3, ?_⟩
  rw [h3]
  decide

theorem findBoundaryDown_le (flags : List Bool) :
    ∀ i start j, findBoundaryDown flags i start = some j →
      j ≤ i ∧ start < j := by
  intro i
  induction i using Nat.strong_induction_on with
  | _ i ih =>
    intro start j hj
    unfold findBoundaryDown at hj
    by_cases h1 : i ≤ start
    · rw [if_pos h1] at hj
      exact absurd hj (by simp)
    · rw [if_neg h1] at hj
      by_cases h2 : flags.getD i false = true
      · rw [if_pos h2] at hj
        have hji : i = j := Option.some.inj hj
        omega
      · rw [if_neg h2] at hj
        have hrec := ih (i - 1) (by omega) start j hj
        omega

theorem splitStep_lt (P : TextProcessor) (words : List String) (flags : List Bool)
    (start : ℕ) (hov : 1 ≤ P.overlap_size) (hs : start < words.length) :
    (splitStep P words flags start).1 < words.length := by
  simp only [splitStep]
  obtain ⟨hi, hG⟩ : ∃ hi, min (start + P.batch_size) words.length = hi := ⟨_, rfl⟩
  rw [hG]
  have hhi : hi ≤ words.length := hG ▸ min_le_right _ _
  have hlen0 : 0 < words.length := Nat.lt_of_le_of_lt (Nat.zero_le start) hs
  cases hfb : findBoundaryDown flags (hi - 1) start with
  | none =>
    simp only [hfb]
    rcases Nat.eq_zero_or_pos hi with h0 | h0
    · rw [h0]
      simpa using hlen0
    · exact lt_of_le_of_lt (Nat.sub_le_sub_left hov hi)
        (lt_of_lt_of_le (Nat.sub_lt h0 one_pos) hhi)
  | some i =>
    obtain ⟨h3, h4⟩ := findBoundaryDown_le flags (hi - 1) start i hfb
    simp only [hfb]
    have hipos : 0 < i := Nat.lt_of_le_of_lt (Nat.zero_le start) h4
    have h5 : 0 < hi := by
      rcases Nat.eq_zero_or_pos hi with h0 | h0
      · rw [h0] at h3
        exact absurd (Nat.le_zero.mp (by simpa using h3)) (Nat.pos_iff_ne_zero.mp hipos)
      · exact h0
    have hX : i + 1 ≤ hi := Nat.succ_le_of_lt ((Nat.lt_iff_le_pred h5).mpr h3)
    exact lt_of_le_of_lt (Nat.sub_le_sub_left hov (i + 1))
      (lt_of_lt_of_le (Nat.sub_lt (Nat.succ_pos i) one_pos) (le_trans hX hhi))

theorem splitLoop_none (P : TextProcessor) (words : List String)
    (flags : List Bool) (hov : 1 ≤ P.overlap_size) :
    ∀ fuel start acc, start < words.length →
      splitLoop P words flags fuel start acc = none := by
  intro fuel
  induction fuel with
  | zero => intro start acc _; rfl
  | succ n ih =>
    intro start acc h
    simp only [splitLoop, h, if_true]
    exact ih _ _ (splitStep_lt P words flags start hov h)

/-- Claim C1 (code bug): on any text over the token budget,
`_recursive_rag_compress` calls `split_into_batches`, whose window loop can
never exit (`start_idx = max(0, end_idx - overlap_size)` stays below
`len(words)` whenever `overlap_size >= 1`), so no amount of fuel makes the
call return -- and even if the splitter returned, line 186 of `engine.py`
would raise `AttributeError` on the undefined `temp_rag.rag_store`.  Here
at the concrete failing input: a two-token text against a one-token budget
under the engine's default processor configuration. -/
theorem recursive_rag_compress_diverges (fuel : ℕ) :
    recursive_rag_compress engineProcessor (fun t => (pySplit t).length)
      (fun _ => "s") (fun _ => [0]) true 3 fuel "a b" 1 = none := by
  have hgt : ¬ ((fun t => (pySplit t).length) "a b" ≤ 1) := by decide
  have hsplit : engineProcessor.split_into_batches "a b" fuel = none := by
    unfold TextProcessor.split_into_batches
    apply splitLoop_none
    · decide
    · decide
  unfold recursive_rag_compress
  rw [if_neg hgt, hsplit]

theorem sqL2_nonneg (u v : List ℚ) : 0 ≤ sqL2 u v := by
  apply List.sum_nonneg
  intro x hx
  obtain ⟨p, _, rfl⟩ := List.mem_map.mp hx
  exact sq_nonneg _

theorem insertSorted_map {α β : Type _} (g : α → β) (le₁ : α → α → Bool)
    (le₂ : β → β → Bool) (x : α) :
    ∀ l : List α, (∀ y ∈ l, le₂ (g x) (g y) = le₁ x y) →
      insertSorted le₂ (g x) (l.map g) = (insertSorted le₁ x l).map g := by
  intro l
  induction l with
  | nil => intro _; rfl
  | cons y ys ih =>
    intro hc
    have hxy : le₂ (g x) (g y) = le₁ x y := hc y (List.mem_cons_self y ys)
    simp only [List.map_cons, insertSorted, hxy]
    by_cases hxy1 : le₁ x y = true
    · simp [hxy1]
    · simp only [hxy1, if_false, Bool.false_eq_true, List.map_cons, List.cons.injEq,
        true_and]
      exact ih (fun z hz => hc z (List.mem_cons_of_mem y hz))

theorem sortedBy_map {α β : Type _} (g : α → β) (le₁ : α → α → Bool)
    (le₂ : β → β → Bool) :
    ∀ l : List α, (∀ a ∈ l, ∀ b ∈ l, le₂ (g a) (g b) = le₁ a b) →
      sortedBy le₂ (l.map g) = (sortedBy le₁ l).map g := by
  intro l
  induction l with
  | nil => intro _; rfl
  | cons x xs ih =>
    intro hc
    simp only [List.map_cons, sortedBy]
    rw [ih (fun a ha b hb =>
      hc a (List.mem_cons_of_mem x ha) b (List.mem_cons_of_mem x hb))]
    apply insertSorted_map
    intro y hy
    have hyx : y ∈ xs := ((sortedBy_perm le₁ xs).mem_iff).mp hy
    exact hc x (List.mem_cons_self x xs) y (List.mem_cons_of_mem x hyx)

theorem simDistLe (a b : ℤ × ℚ) (ha : 0 ≤ a.2) (hb : 0 ≤ b.2) :
    decide ((1 : ℚ) / (1 + b.2) < 1 / (1 + a.2) ∨
      ((1 : ℚ) / (1 + a.2) = 1 / (1 + b.2) ∧ a.1 ≤ b.1)) = faissLe a b := by
  simp only [faissLe]
  rw [decide_eq_decide]
  have pa : (0 : ℚ) < 1 + a.2 := by linarith
  have pb : (0 : ℚ) < 1 + b.2 := by linarith
  have hlt : (1 : ℚ) / (1 + b.2) < 1 / (1 + a.2) ↔ a.2 < b.2 := by
    rw [one_div_lt_one_div pb pa, add_lt_add_iff_left]
  have heq : (1 : ℚ) / (1 + a.2) = 1 / (1 + b.2) ↔ a.2 = b.2 := by
    rw [div_eq_div_iff (ne_of_gt pa) (ne_of_gt pb), one_mul, one_mul]
    constructor <;> intro h <;> linarith
  constructor
  · rintro (h | ⟨h1, h2⟩)
    · exact Or.inl (hlt.mp h)
    · exact Or.inr ⟨heq.mp h1, h2⟩
  · rintro (h | ⟨h1, h2⟩)
    · exact Or.inl (hlt.mpr h)
    · exact Or.inr ⟨heq.mpr h1, h2⟩

theorem scored_mem_facts (vecs : List (List ℚ)) (qe : List ℚ) :
    ∀ p ∈ vecs.enum.map (fun q => ((q.1 : ℤ), sqL2 qe q.2)),
      0 ≤ p.1 ∧ p.1 < (vecs.length : ℤ) ∧ 0 ≤ p.2 := by
  intro p hp
  obtain ⟨q, hq, rfl⟩ := List.mem_map.mp hp
  obtain ⟨h1, _⟩ := List.mem_enum (show (q.1, q.2) ∈ vecs.enum by simpa using hq)
  refine ⟨Int.natCast_nonneg q.1, ?_, sqL2_nonneg qe q.2⟩
  show (q.1 : ℤ) < (vecs.length : ℤ)
  exact_mod_cast h1

/-- Claim C2 amended: on the FAISS path, when the search covers only real
records (`min(top_k, |texts|) <= |index| <= |texts|`), `retrieve` returns
exactly the stored summary strings of the `min(top_k, |texts|)` records
ranked by similarity `1 / (1 + distance)` descending with ties by ascending
id -- but performs no threshold filtering and returns stored summaries, not
separate source texts. -/
theorem retrieve_amended (embed : String → List ℚ) (st : RAGState)
    (query : String) (top_k : ℕ) (vecs : List (List ℚ))
    (hidx : st.index = some vecs) (hf : st.use_faiss = true)
    (ht : st.texts ≠ []) (he : st.embeddings ≠ [])
    (hk : min top_k st.texts.length ≤ vecs.length)
    (hlen : vecs.length ≤ st.texts.length) :
    retrieve embed st query top_k = retrieveAmendedSpec embed st query top_k := by
  have h0 : 0 < st.texts.length := List.length_pos.mpr ht
  have hcond : (st.use_faiss && st.index.isSome &&
      decide (0 < st.texts.length)) = true := by
    rw [hf, hidx]
    simp [h0]
  rw [retrieve, if_neg ht, if_neg he, if_pos hcond, retrieveAmendedSpec, hidx]
  simp only [Option.getD_some]
  have hsortlen : (sortedBy faissLe (vecs.enum.map
      (fun p => ((p.1 : ℤ), sqL2 (embed query) p.2)))).length = vecs.length := by
    rw [sortedBy_length, List.length_map, List.enum_length]
  have hnn : nnSearch vecs (embed query) (min top_k st.texts.length) =
      (sortedBy faissLe (vecs.enum.map
        (fun p => ((p.1 : ℤ), sqL2 (embed query) p.2)))).take
        (min top_k st.texts.length) := by
    simp only [nnSearch]
    rw [List.length_take, hsortlen, min_eq_left hk, Nat.sub_self,
      List.replicate_zero, List.append_nil]
  rw [hnn]
  have hmapped : vecs.enum.map
      (fun p => ((p.1 : ℤ), (1 : ℚ) / (1 + sqL2 (embed query) p.2))) =
      (vecs.enum.map (fun p => ((p.1 : ℤ), sqL2 (embed query) p.2))).map
        (fun q => (q.1, (1 : ℚ) / (1 + q.2))) := by
    rw [List.map_map]
    rfl
  rw [hmapped]
  rw [sortedBy_map (fun q => (q.1, (1 : ℚ) / (1 + q.2))) faissLe
    (fun a b => decide (b.2 < a.2 ∨ (a.2 = b.2 ∧ a.1 ≤ b.1)))
    (vecs.enum.map (fun p => ((p.1 : ℤ), sqL2 (embed query) p.2)))
    (fun a haf b hbf => by
      obtain ⟨_, _, ha2⟩ := scored_mem_facts vecs (embed query) a haf
      obtain ⟨_, _, hb2⟩ := scored_mem_facts vecs (embed query) b hbf
      exact simDistLe a b ha2 hb2)]
  rw [← List.map_take, List.filterMap_map]
  apply List.filterMap_congr
  intro p hp
  have hpmem : p ∈ vecs.enum.map
      (fun q => ((q.1 : ℤ), sqL2 (embed query) q.2)) :=
    ((sortedBy_perm faissLe _).mem_iff).mp (List.mem_of_mem_take hp)
  obtain ⟨hp0, hplt, _⟩ := scored_mem_facts vecs (embed query) p hpmem
  have hptext : p.1 < (st.texts.length : ℤ) :=
    lt_of_lt_of_le hplt (by exact_mod_cast hlen)
  rw [if_pos hptext]
  have hpidx : pyIndex st.texts p.1 = st.texts.get? p.1.toNat := by
    simp [pyIndex, hp0]
  cases hgs : st.texts.get? p.1.toNat with
  | none =>
    exfalso
    have hge := List.get?_eq_none.mp hgs
    omega
  | some s =>
    have hsmem : s ∈ st.texts := List.get?_mem hgs
    rw [hpidx, hgs]
    show (if s ∈ st.texts then some s else none) = _
    rw [if_pos hsmem]
    exact (hpidx.trans hgs).symm

/-- Counterexample to claim C2 as stated: on the (reachable) store holding
one record whose vector is at squared distance 9 from the query -- so its
similarity `1/(1+9) = 0.1` is far below the 0.7 threshold -- `retrieve`
still returns the record, while the specified behaviour returns nothing. -/
theorem retrieve_threshold_counterexample :
    retrieve farEmbed storedOnceState "q" 1 = ["s"] ∧
    retrieveSpec farEmbed storedOnceState "q" 1 = [] := by
  constructor
  · norm_num [retrieve, storedOnceState, farEmbed, nnSearch, sortedBy,
      insertSorted, faissLe, sqL2, pyIndex, List.enum, List.enumFrom,
      List.filterMap_cons]
    decide
  · norm_num [retrieveSpec, storedOnceState, farEmbed, nnSearch, sortedBy,
      insertSorted, faissLe, sqL2, pyIndex, List.enum, List.enumFrom,
      List.filterMap_cons, List.filter_cons]

/-- Witness for the amended C2 at a concrete well-formed one-record store. -/
theorem retrieve_amended_witness :
    singleRecordState.index = some [[0]] ∧
    singleRecordState.use_faiss = true ∧
    singleRecordState.texts ≠ [] ∧
    singleRecordState.embeddings ≠ [] ∧
    min 1 singleRecordState.texts.length ≤ ([[(0 : ℚ)]] : List (List ℚ)).length ∧
    ([[(0 : ℚ)]] : List (List ℚ)).length ≤ singleRecordState.texts.length ∧
    retrieve nearEmbed singleRecordState "q" 1 =
      retrieveAmendedSpec nearEmbed singleRecordState "q" 1 :=
  ⟨rfl, rfl, by decide, by decide, by decide, by decide,
    retrieve_amended nearEmbed singleRecordState "q" 1 [[0]] rfl rfl (by decide)
      (by decide) (by decide) (by decide)⟩

end OpenKimi
